import Mathlib

/-!
Shallow embedding of the bad/defective-pixel synthesis model of the
`pixel_defects` repository (`src/bad_pixels.py`, `src/image_generation.py`).

Randomness is modelled by explicit draw streams passed to each function:
`Nat → Nat` streams drive index selection (`np.random.choice`) and
`Nat → ℚ` streams deliver the successive outputs of the distribution
samplers (`np.random.normal`, `skewnorm.rvs`); the distribution parameters
(`hot_peak`, `hot_std_dev`, `skewness_warm`, ...) shape the stream in the
real program but do not otherwise enter the control flow, so they live in
the stream here.  Pixel values are exact rationals (the code uses floats;
all claims are settled in exact arithmetic, matching the spec's
`floor`/exact phrasing).  File I/O (`FitsManager`, `FITSImage`,
`fits.writeto`) is the external collaborator assumed by the spec: loading
is modelled by taking the frame sequences as inputs, persistence by
returning the list of written files (path, header metadata, pixel data).
-/

namespace PixelDefects

/-! ### Index selection (`np.random.choice(..., replace=False)`) -/

/-- One step of sampling without replacement: from a non-empty pool pick the
element whose position is the next stream draw reduced mod the pool size.
Models a single draw of `np.random.choice(pool, replace=False)`. -/
def pickOne (draw : Nat) (pool : List Nat) : Nat :=
  pool.getD (draw % pool.length) 0

/-- `np.random.choice(pool, k, replace=False)` driven by the draw stream
`s` starting at cursor `c`: repeatedly pick an element of the remaining
pool and remove it.  Produces `k` pairwise-distinct elements of `pool`
whenever `k ≤ pool.length`. -/
def sampleNoReplace (s : Nat → Nat) : Nat → Nat → List Nat → List Nat
  | _, 0, _ => []
  | _, _ + 1, [] => []
  | c, k + 1, p@(_ :: _) =>
      let x := pickOne (s c) p
      x :: sampleNoReplace s (c + 1) k (p.erase x)

/-! ### Rejection sampling (`while len(values) < num: ...`) -/

/-- The accepted values among the first `n` draws of the value stream `vs`,
in draw order.  The `while` loops of `bad_pixel_locations` collect exactly
the first `num` entries of this list, drawing until enough are accepted. -/
def acceptedWithin (accept : ℚ → Bool) (vs : Nat → ℚ) (n : Nat) : List ℚ :=
  ((List.range n).map vs).filter accept

/-- The unbounded rejection-sampling `while` loop of `bad_pixel_locations`,
indexed by the number of draws taken so far (`fuel`): `some` with the first
`num` accepted values once the stream has delivered that many, `none` while
the loop is still running.  The source has no attempt bound of its own. -/
def rejectionSample (accept : ℚ → Bool) (vs : Nat → ℚ) (num fuel : Nat) :
    Option (List ℚ) :=
  if num ≤ (acceptedWithin accept vs fuel).length then
    some ((acceptedWithin accept vs fuel).take num)
  else none

/-- The rejection-sampling loop terminates iff some finite number of draws
yields at least `num` accepted values. -/
def SamplerTerminates (accept : ℚ → Bool) (vs : Nat → ℚ) (num : Nat) : Prop :=
  ∃ n, num ≤ (acceptedWithin accept vs n).length

/-! ### Grids, shapes and pixel writes -/

/-- A pixel grid: 2-D list of rational intensity samples. -/
abbrev Grid := List (List ℚ)

/-- Shape of a 2-D image `(rows, columns)`; numpy arrays are rectangular,
so `image.size = rows * columns` (`imgSize`). -/
def shape (image : Grid) : Nat × Nat :=
  (image.length, (image.headD []).length)

/-- `image.size`: total number of pixels. -/
def imgSize (image : Grid) : Nat :=
  (shape image).1 * (shape image).2

/-- `int(total_pixels * (percentage / 100))`: for percentages in `[0, 100]`
the float truncation is the floor of the exact rational value
`total * percentage / 100`, computed here on integers (`Int` division is
Euclidean division, which is the floor for the positive denominator
`100 * percentage.den`); see `numDefectPixels_eq_floor`. -/
def numDefectPixels (total : Nat) (percentage : ℚ) : Nat :=
  (((total : Int) * percentage.num) / (100 * (percentage.den : Int))).toNat

/-- `np.unravel_index` for a 2-D row-major array with `w` columns. -/
def unravelIndex (w i : Nat) : Nat × Nat :=
  (i / w, i % w)

/-- `frame[r][c] = v`: numpy in-place assignment to a single pixel.
An out-of-range coordinate leaves the grid unchanged (`List.set` is the
identity out of bounds); in-range behaviour is what every claim uses. -/
def setPixel (frame : Grid) (c : Nat × Nat) (v : ℚ) : Grid :=
  frame.set c.1 ((frame.getD c.1 []).set c.2 v)

/-- Read a pixel (0 outside the grid). -/
def getPixel (frame : Grid) (c : Nat × Nat) : ℚ :=
  (frame.getD c.1 []).getD c.2 0

/-- `raw_image[indices] = values`: numpy fancy assignment of one value per
coordinate, positionally matched. -/
def writePixels (frame : Grid) (coords : List (Nat × Nat)) (vals : List ℚ) :
    Grid :=
  (coords.zip vals).foldl (fun fr p => setPixel fr p.1 p.2) frame

/-- `raw_image[indices] = value`: numpy fancy assignment of a single scalar
to every coordinate in the set. -/
def writeConst (frame : Grid) (coords : List (Nat × Nat)) (v : ℚ) : Grid :=
  coords.foldl (fun fr c => setPixel fr c v) frame

/-- The frame is an `hh × ww` rectangular grid (numpy 2-D arrays always
are). -/
def Rectangular (frame : Grid) (hh ww : Nat) : Prop :=
  frame.length = hh ∧ ∀ row ∈ frame, row.length = ww

/-! ### `bad_pixel_locations` -/

/-- Outcome of `bad_pixel_locations`. -/
inductive LocOutcome where
  /-- `np.random.choice(..., replace=False)` raised because the requested
  count exceeds the available population (the spec's
  `InsufficientPixelsError`). -/
  | insufficientPixels : LocOutcome
  /-- A rejection-sampling loop has not finished within the given number of
  draws (the loop itself is unbounded; there is no error for this case). -/
  | stillSampling : LocOutcome
  /-- Normal return: hot coordinates, dead coordinates, hot values, dead
  values. -/
  | done (hotCoords deadCoords : List (Nat × Nat))
      (hotValues deadValues : List ℚ) : LocOutcome
  deriving DecidableEq

/-- `bad_pixel_locations(image, hot_percentage, dead_percentage, hot_peak,
hot_std_dev, hot_upper_limit, dead_mean, dead_std_dev, dead_lower_limit)`.

The Gaussian draws `np.random.normal(hot_peak, sqrt(hot_std_dev))` and
`np.random.normal(dead_mean, dead_std_dev)` are delivered by the streams
`hotDraws` and `deadDraws`; the location parameters only shape those
streams, so only the acceptance bounds `hotUpperLimit`/`deadLowerLimit`
appear.  `idx` drives both `np.random.choice` calls and `fuel` bounds the
observation of the two (unbounded) value loops.  The function copies the
image (`np.copy`) and reads only its dimensions. -/
def badPixelLocations (image : Grid)
    (hotPercentage deadPercentage : ℚ)
    (hotUpperLimit deadLowerLimit : ℚ)
    (idx : Nat → Nat) (hotDraws deadDraws : Nat → ℚ)
    (fuel : Nat) : LocOutcome :=
  let total := imgSize image
  let w := (shape image).2
  let numHot := numDefectPixels total hotPercentage
  let numDead := numDefectPixels total deadPercentage
  if numHot > total then .insufficientPixels
  else
    let hotFlat := sampleNoReplace idx 0 numHot (List.range total)
    let remaining := (List.range total).filter (fun i => i ∉ hotFlat)
    if numDead > remaining.length then .insufficientPixels
    else
      let deadFlat := sampleNoReplace idx numHot numDead remaining
      match rejectionSample (fun q => q ≤ hotUpperLimit) hotDraws numHot fuel,
          rejectionSample (fun q => deadLowerLimit ≤ q) deadDraws numDead fuel with
      | some hotVals, some deadVals =>
          .done (hotFlat.map (unravelIndex w)) (deadFlat.map (unravelIndex w))
            hotVals deadVals
      | _, _ => .stillSampling

/-! ### `add_bad_pixels` and `add_telegraphic_pixels` -/

/-- A source frame as loaded by `FITSImage`: pixel data plus the observation
date string later copied into the output header. -/
structure SrcFrame where
  data : Grid
  date : String
  deriving DecidableEq

/-- One file written by `fits.writeto`: path, image-type header keyword,
observation-date header value, pixel data. -/
structure OutFile where
  path : String
  frameClass : String
  timestamp : String
  data : Grid
  deriving DecidableEq

/-- Body of both frame loops of `add_bad_pixels`: hot values are written
first, dead values second. -/
def applyStaticDefects (hotCoords : List (Nat × Nat)) (hotVals : List ℚ)
    (deadCoords : List (Nat × Nat)) (deadVals : List ℚ) (frame : Grid) :
    Grid :=
  writePixels (writePixels frame hotCoords hotVals) deadCoords deadVals

/-- `add_bad_pixels(dir_raw_images, dir_bad_images, hot_indices,
dead_indices, hot_pixel_values, dead_pixel_values)`: loads every light
frame then every dark frame (the `FitsManager` listing is the input
`lights`/`darks` here), overwrites the hot and dead coordinate sets in each,
and persists the results.  The function reassigns `dir_bad_images` to a
hardcoded string literal before any write, so the caller's argument never
reaches a path. -/
def addBadPixels (dirBadImages : String) (lights darks : List SrcFrame)
    (hotCoords deadCoords : List (Nat × Nat)) (hotVals deadVals : List ℚ) :
    List OutFile :=
  let dir := "./images_all_guiding_hot_cold_warm_pixels"
  (lights.mapIdx fun i f =>
    { path := dir ++ "/image_light_hcw_pixels_" ++ toString (i + 1) ++ ".fits"
      frameClass := "light"
      timestamp := f.date
      data := applyStaticDefects hotCoords hotVals deadCoords deadVals f.data })
  ++ (darks.mapIdx fun i f =>
    { path := dir ++ "/image_dark_hcw_pixels_" ++ toString (i + 1) ++ ".fits"
      frameClass := "dark"
      timestamp := f.date
      data := applyStaticDefects hotCoords hotVals deadCoords deadVals f.data })

/-- `i % interval == 0 and i != 0`: the frame indices at which
`add_telegraphic_pixels` writes the stuck value. -/
def telegraphCondition (interval i : Nat) : Bool :=
  i % interval == 0 && i != 0

/-- The (redundantly doubled) assignment of the fixed telegraphic value at
the selected coordinates; the source performs
`raw_image[telegraphic_indices] = telegraphic_pixel_values` twice. -/
def applyTelegraphic (coords : List (Nat × Nat)) (v : ℚ) (frame : Grid) :
    Grid :=
  writeConst (writeConst frame coords v) coords v

/-- One frame of the telegraphic loop: modified exactly when
`telegraphCondition` holds at its index, passed through otherwise. -/
def telegraphFrame (interval : Nat) (coords : List (Nat × Nat)) (v : ℚ)
    (i : Nat) (frame : Grid) : Grid :=
  if telegraphCondition interval i then applyTelegraphic coords v frame
  else frame

/-- The coordinate set selected by `add_telegraphic_pixels`: a
without-replacement sample of `int(total * pct/100)` flat indices of the
first light frame's grid, unraveled row-major. -/
def telegraphCoords (lights : List SrcFrame) (telegraphicPercentage : ℚ)
    (idx : Nat → Nat) : List (Nat × Nat) :=
  let firstData := (lights.headD ⟨[], ""⟩).data
  let total := imgSize firstData
  let num := numDefectPixels total telegraphicPercentage
  (sampleNoReplace idx 0 num (List.range total)).map
    (unravelIndex (shape firstData).2)

/-- `add_telegraphic_pixels(dir_raw_images, dir_bad_images,
telegraphic_percentage, interval, telegraphic_pixel_values)`: selects one
coordinate set from the first light frame's dimensions, then writes the
fixed value `v` at those coordinates in frame `i` of the light sequence and
of the dark sequence exactly when `i % interval == 0 and i != 0`, leaving
every other frame's data untouched.  As in `add_bad_pixels`,
`dir_bad_images` is reassigned to a hardcoded literal before use. -/
def addTelegraphicPixels (dirBadImages : String) (lights darks : List SrcFrame)
    (telegraphicPercentage : ℚ) (interval : Nat) (v : ℚ) (idx : Nat → Nat) :
    List OutFile :=
  let dir := "./images_all_guiding_bad_pixels"
  let coords := telegraphCoords lights telegraphicPercentage idx
  (lights.mapIdx fun i f =>
    { path := dir ++ "/image_light_guiding_bad_pixels_" ++ toString (i + 1)
        ++ ".fits"
      frameClass := "light"
      timestamp := f.date
      data := telegraphFrame interval coords v i f.data })
  ++ (darks.mapIdx fun i f =>
    { path := dir ++ "/image_dark_guiding_bad_pixels_" ++ toString (i + 1)
        ++ ".fits"
      frameClass := "dark"
      timestamp := f.date
      data := telegraphFrame interval coords v i f.data })

/-! ### `warm_pixels` and the image-generation run (`image_generation.py`) -/

/-- Empirical mean, `np.mean`. -/
def mean (l : List ℚ) : ℚ := l.sum / l.length

/-- Empirical (population) variance, the square of `np.std`. -/
def variance (l : List ℚ) : ℚ := mean (l.map (fun x => (x - mean l) ^ 2))

/-- Exact rational square root: correct whenever numerator and denominator
of the (reduced) input are perfect squares, which holds at every concrete
input used below.  `np.std` takes a real square root, which has no
computable rational counterpart; the rescaling theorems therefore take the
computed standard deviation abstractly, through the hypothesis
`s * s = variance data`. -/
def ratSqrt (q : ℚ) : ℚ :=
  (Nat.sqrt q.num.toNat : ℚ) / (Nat.sqrt q.den : ℚ)

/-- The two rescaling steps of `warm_pixels` applied to the skew-normal
sample `data`, with the computed standard deviation `s = np.std(data)`
passed explicitly: `scaled_data = data / data_std * std_warm` followed by
`scaled_data = scaled_data + (mean_warm - np.mean(scaled_data))`. -/
def scaledData (data : List ℚ) (s stdWarm meanWarm : ℚ) : List ℚ :=
  let sc := data.map (fun x => x / s * stdWarm)
  sc.map (fun x => x + (meanWarm - mean sc))

/-- `.astype(np.uint16)` on a nonnegative float: truncation to an unsigned
16-bit integer (all values arising in the claims are nonnegative; a
negative value is clamped to 0 here, where the C cast would wrap). -/
def toUInt16Val (q : ℚ) : Nat := (Rat.floor q).toNat % 65536

/-- `warm_pixels(camera, exposure_time, mean_warm, std_warm, skewness_warm,
size)` as called by the generation functions, i.e. with
`size = camera.width * camera.height`.  `skewDraws` delivers the
`skewnorm.rvs` outputs and `poisDraws` the per-pixel Poisson draws of
`np.random.poisson(base * dark_current * exposure_time)`; `sqrtFn` stands
for the real square root inside `np.std`.  Returns `(warm, scaled_data)`:
the uint16 array `base + scaled_data` that the generation loops add to
every frame, and the reshaped rescaled sample. -/
def warmPixels (sqrtFn : ℚ → ℚ) (h w : Nat) (meanWarm stdWarm : ℚ)
    (skewDraws : Nat → ℚ) (poisDraws : Nat → Nat) :
    List (List Nat) × Grid :=
  let size := h * w
  let data := (List.range size).map skewDraws
  let s := sqrtFn (variance data)
  let scaled := scaledData data s stdWarm meanWarm
  let base : Nat → ℚ := fun k => 1 + (poisDraws k : ℚ)
  let warm := (List.range h).map (fun r => (List.range w).map (fun c =>
      toUInt16Val (base (r * w + c) + scaled.getD (r * w + c) 0)))
  let scaledGrid := (List.range h).map (fun r => (List.range w).map (fun c =>
      scaled.getD (r * w + c) 0))
  (warm, scaledGrid)

/-- `light += warm` / `dark += warm`: elementwise addition of the uint16
warm array onto a synthesized base frame. -/
def addWarmGrid (b : Grid) (warm : List (List Nat)) : Grid :=
  (List.range b.length).map (fun r => (List.range ((b.getD r []).length)).map
    (fun c => (b.getD r []).getD c 0 + ((warm.getD r []).getD c 0 : ℚ)))

/-- `mean_warm` default of `warm_pixels`: `45.6 + 5`. -/
def meanWarmDefault : ℚ := 45.6 + 5

/-- `std_warm` default of `warm_pixels`: `9.3`. -/
def stdWarmDefault : ℚ := 9.3

/-- `generate_light_images`: calls `warm_pixels(camera, exposure_time,
size=camera.width*camera.height)` once — with the default `mean_warm` and
`std_warm` — and adds the resulting warm array to every synthesized light
frame.  The external synthesis `cabaret.generate_image` delivers
`baseImage i` for the `i`-th frame. -/
def generateLightImages (numLight : Nat) (baseImage : Nat → Grid)
    (sqrtFn : ℚ → ℚ) (h w : Nat) (skewDraws : Nat → ℚ)
    (poisDraws : Nat → Nat) : List Grid :=
  let warm := (warmPixels sqrtFn h w meanWarmDefault stdWarmDefault
      skewDraws poisDraws).1
  (List.range numLight).map (fun i => addWarmGrid (baseImage i) warm)

/-- `generate_dark_images`: structurally identical to
`generateLightImages`, but with its own fresh call to `warm_pixels` on its
own segment of the global random stream. -/
def generateDarkImages (numDark : Nat) (baseImage : Nat → Grid)
    (sqrtFn : ℚ → ℚ) (h w : Nat) (skewDraws : Nat → ℚ)
    (poisDraws : Nat → Nat) : List Grid :=
  let warm := (warmPixels sqrtFn h w meanWarmDefault stdWarmDefault
      skewDraws poisDraws).1
  (List.range numDark).map (fun i => addWarmGrid (baseImage i) warm)

/-- The two warm arrays of one run of the generation script
(`generate_light_images` then `generate_dark_images` in the same process):
each function calls `warm_pixels` afresh on the shared global random
stream, so the dark call's skew-normal and Poisson draws continue where the
light call's stopped (the light call consumed `h*w` draws of each). -/
def runWarmArrays (sqrtFn : ℚ → ℚ) (h w : Nat) (skew : Nat → ℚ)
    (pois : Nat → Nat) : List (List Nat) × List (List Nat) :=
  ((warmPixels sqrtFn h w meanWarmDefault stdWarmDefault skew pois).1,
   (warmPixels sqrtFn h w meanWarmDefault stdWarmDefault
      (fun i => skew (h * w + i)) (fun i => pois (h * w + i))).1)

/-! ### Basic lemmas on the samplers -/

theorem pickOne_mem (draw : Nat) (pool : List Nat) (h : pool ≠ []) :
    pickOne draw pool ∈ pool := by
  have hlen : 0 < pool.length := List.length_pos.mpr h
  have hlt : draw % pool.length < pool.length := Nat.mod_lt _ hlen
  unfold pickOne
  rw [List.getD_eq_getElem?_getD, List.getElem?_eq_getElem hlt]
  exact List.getElem_mem _

theorem sampleNoReplace_subset (s : Nat → Nat) :
    ∀ (k c : Nat) (p : List Nat), ∀ x ∈ sampleNoReplace s c k p, x ∈ p := by
  intro k
  induction k with
  | zero => intro c p x hx; simp [sampleNoReplace] at hx
  | succ k ih =>
      intro c p x hx
      cases p with
      | nil => simp [sampleNoReplace] at hx
      | cons a t =>
          simp only [sampleNoReplace] at hx
          rcases List.mem_cons.mp hx with h | h
          · exact h ▸ pickOne_mem _ _ (by simp)
          · exact List.mem_of_mem_erase (ih _ _ _ h)

theorem sampleNoReplace_length (s : Nat → Nat) :
    ∀ (k c : Nat) (p : List Nat), k ≤ p.length →
      (sampleNoReplace s c k p).length = k := by
  intro k
  induction k with
  | zero => intro c p _; simp [sampleNoReplace]
  | succ k ih =>
      intro c p hk
      cases p with
      | nil => simp at hk
      | cons a t =>
          simp only [sampleNoReplace, List.length_cons]
          have hmem : pickOne (s c) (a :: t) ∈ a :: t := pickOne_mem _ _ (by simp)
          have herase : ((a :: t).erase (pickOne (s c) (a :: t))).length
              = (a :: t).length - 1 := List.length_erase_of_mem hmem
          have : k ≤ ((a :: t).erase (pickOne (s c) (a :: t))).length := by
            rw [herase]; simp only [List.length_cons, Nat.add_sub_cancel]
            exact Nat.le_of_succ_le_succ hk
          rw [ih _ _ this]

theorem sampleNoReplace_nodup (s : Nat → Nat) :
    ∀ (k c : Nat) (p : List Nat), p.Nodup → (sampleNoReplace s c k p).Nodup := by
  intro k
  induction k with
  | zero => intro c p _; simp [sampleNoReplace]
  | succ k ih =>
      intro c p hp
      cases p with
      | nil => simp [sampleNoReplace]
      | cons a t =>
          simp only [sampleNoReplace]
          refine List.nodup_cons.mpr ⟨?_, ih _ _ (hp.erase _)⟩
          intro hmem
          exact hp.not_mem_erase (sampleNoReplace_subset s _ _ _ _ hmem)

theorem numDefectPixels_eq_floor (total : Nat) (p : ℚ) (hp : 0 ≤ p) :
    (numDefectPixels total p : ℤ) = ⌊(total : ℚ) * (p / 100)⌋ := by
  have hnum : 0 ≤ p.num := Rat.num_nonneg.mpr hp
  have hden : ((p.den : ℚ)) ≠ 0 := Nat.cast_ne_zero.mpr p.den_nz
  have hnd : ((p.num : ℚ)) = p * (p.den : ℚ) :=
    (div_eq_iff hden).mp (Rat.num_div_den p)
  have hval : (total : ℚ) * (p / 100)
      = ((total * p.num : ℤ) : ℚ) / ((100 * p.den : ℕ) : ℚ) := by
    push_cast
    field_simp
    rw [hnd]
    ring
  have hfloor : ⌊(total : ℚ) * (p / 100)⌋
      = (total * p.num : ℤ) / ((100 * p.den : ℕ) : ℤ) := by
    rw [hval, Rat.floor_intCast_div_natCast]
  have hpos : (0 : ℤ) ≤ (total * p.num : ℤ) / ((100 * p.den : ℕ) : ℤ) :=
    Int.ediv_nonneg (by positivity) (by positivity)
  rw [hfloor]
  unfold numDefectPixels
  have harg : (total : Int) * p.num / (100 * (p.den : Int))
      = (total * p.num : ℤ) / ((100 * p.den : ℕ) : ℤ) := by
    push_cast; ring_nf
  rw [harg, Int.toNat_of_nonneg hpos]

theorem numDefectPixels_zero (total : Nat) : numDefectPixels total 0 = 0 := by
  simp [numDefectPixels]

theorem unravelIndex_injective (w : Nat) : Function.Injective (unravelIndex w) := by
  intro i j h
  have h1 : i / w = j / w := congrArg Prod.fst h
  have h2 : i % w = j % w := congrArg Prod.snd h
  calc i = w * (i / w) + i % w := (Nat.div_add_mod i w).symm
    _ = w * (j / w) + j % w := by rw [h1, h2]
    _ = j := Nat.div_add_mod j w

theorem length_filter_not_mem (total : Nat) (l : List Nat)
    (hsub : ∀ x ∈ l, x ∈ List.range total) (hnd : l.Nodup) :
    ((List.range total).filter (fun i => i ∉ l)).length = total - l.length := by
  have hmemperm : List.Perm ((List.range total).filter (fun i => i ∈ l)) l :=
    (List.perm_ext_iff_of_nodup (List.Nodup.filter _ (List.nodup_range total))
      hnd).mpr (by
      intro a
      simp only [List.mem_filter, List.mem_range, decide_eq_true_eq]
      exact ⟨fun h => h.2, fun h => ⟨List.mem_range.mp (hsub a h), h⟩⟩)
  have h1 : ((List.range total).filter (fun i => i ∈ l)).length = l.length :=
    hmemperm.length_eq
  have h2 := List.length_eq_length_filter_add
    (l := List.range total) (fun i => decide (i ∈ l))
  have h3 : (List.range total).filter (fun i => !decide (i ∈ l))
      = (List.range total).filter (fun i => i ∉ l) := by
    apply List.filter_congr
    intro x _
    simp
  rw [List.length_range] at h2
  rw [← h3]
  omega

theorem rejectionSample_some (accept : ℚ → Bool) (vs : Nat → ℚ)
    (num fuel : Nat) (l : List ℚ)
    (h : rejectionSample accept vs num fuel = some l) :
    l.length = num ∧ ∀ v ∈ l, accept v = true := by
  unfold rejectionSample at h
  split_ifs at h with hge
  injection h with hl
  subst hl
  constructor
  · rw [List.length_take]
    omega
  · intro v hv
    exact List.of_mem_filter (List.mem_of_mem_take hv)

/-! ### C1: sizes and disjointness of the coordinate sets -/

/-- C1: whenever `bad_pixel_locations` returns, the hot coordinate set has
exactly `floor(total_pixels * hot_percentage / 100)` distinct coordinates,
the dead coordinate set exactly
`floor(total_pixels * dead_percentage / 100)` distinct coordinates, the two
sets are disjoint (dead indices are drawn only from the complement of the
hot indices), and a zero percentage yields an empty set. -/
theorem badPixelLocations_sizes_and_disjointness
    (image : Grid) (hp dp hul dll : ℚ) (idx : Nat → Nat)
    (hdrw ddrw : Nat → ℚ) (fuel : Nat)
    (hp0 : 0 ≤ hp) (dp0 : 0 ≤ dp)
    (hc dc : List (Nat × Nat)) (hv dv : List ℚ)
    (h : badPixelLocations image hp dp hul dll idx hdrw ddrw fuel
        = .done hc dc hv dv) :
    ((hc.length : ℤ) = ⌊(imgSize image : ℚ) * (hp / 100)⌋ ∧ hc.Nodup) ∧
    ((dc.length : ℤ) = ⌊(imgSize image : ℚ) * (dp / 100)⌋ ∧ dc.Nodup) ∧
    (∀ c ∈ hc, c ∉ dc) ∧
    (hp = 0 → hc = []) ∧ (dp = 0 → dc = []) := by
  simp only [badPixelLocations] at h
  split_ifs at h with h1 h2
  split at h
  case _ hr1 hr2 =>
    injection h with e1 e2 e3 e4
    subst e1
    subst e2
    set total := imgSize image with htotal
    set nH := numDefectPixels total hp with hnH
    set nD := numDefectPixels total dp with hnD
    set hotFlat := sampleNoReplace idx 0 nH (List.range total) with hhot
    set remaining := (List.range total).filter (fun i => i ∉ hotFlat) with hrem
    set deadFlat := sampleNoReplace idx nH nD remaining with hdead
    have hHnd : hotFlat.Nodup :=
      sampleNoReplace_nodup idx nH 0 (List.range total) (List.nodup_range total)
    have hHlen : hotFlat.length = nH := by
      apply sampleNoReplace_length
      rw [List.length_range]
      omega
    have hremnd : remaining.Nodup :=
      List.Nodup.filter _ (List.nodup_range total)
    have hDsub : ∀ x ∈ deadFlat, x ∈ remaining :=
      sampleNoReplace_subset idx nD nH remaining
    have hDnd : deadFlat.Nodup :=
      sampleNoReplace_nodup idx nD nH remaining hremnd
    have hDlen : deadFlat.length = nD := by
      apply sampleNoReplace_length
      omega
    have hclen : (hotFlat.map (unravelIndex (shape image).2)).length = nH := by
      rw [List.length_map, hHlen]
    have hdlen : (deadFlat.map (unravelIndex (shape image).2)).length = nD := by
      rw [List.length_map, hDlen]
    refine ⟨⟨?_, List.Nodup.map (unravelIndex_injective _) hHnd⟩,
      ⟨?_, List.Nodup.map (unravelIndex_injective _) hDnd⟩, ?_, ?_, ?_⟩
    · rw [hclen, hnH, htotal]
      exact numDefectPixels_eq_floor _ hp hp0
    · rw [hdlen, hnD, htotal]
      exact numDefectPixels_eq_floor _ dp dp0
    · intro c hcmem hcdmem
      rcases List.mem_map.mp hcmem with ⟨i, hi, rfl⟩
      rcases List.mem_map.mp hcdmem with ⟨j, hj, hji⟩
      have hij : j = i := unravelIndex_injective _ hji
      have hjrem : j ∈ remaining := hDsub j hj
      rw [hrem, List.mem_filter] at hjrem
      have : j ∉ hotFlat := by simpa using hjrem.2
      exact this (hij ▸ hi)
    · intro hhp
      apply List.eq_nil_of_length_eq_zero
      rw [hclen, hnH, hhp, numDefectPixels_zero]
    · intro hdp
      apply List.eq_nil_of_length_eq_zero
      rw [hdlen, hnD, hdp, numDefectPixels_zero]
  case _ => exact absurd h (by simp)

/-- Witness for C1: a 2×2 image with `hot_percentage = dead_percentage = 25`
returns one hot and one dead coordinate, distinct, with the theorem's
hypotheses discharged at this concrete input. -/
theorem badPixelLocations_sizes_and_disjointness_witness :
    (0 : ℚ) ≤ 25 ∧
    badPixelLocations [[1, 1], [1, 1]] 25 25 10 0 (fun _ => 0) (fun _ => 5)
      (fun _ => 3) 1 = .done [(0, 0)] [(0, 1)] [5] [3] ∧
    (((([((0 : Nat), (0 : Nat))]).length : ℤ)
        = ⌊(imgSize [[1, 1], [1, 1]] : ℚ) * (25 / 100)⌋ ∧
      ([((0 : Nat), (0 : Nat))]).Nodup) ∧
    ((([((0 : Nat), (1 : Nat))]).length : ℤ)
        = ⌊(imgSize [[1, 1], [1, 1]] : ℚ) * (25 / 100)⌋ ∧
      ([((0 : Nat), (1 : Nat))]).Nodup) ∧
    (∀ c ∈ [((0 : Nat), (0 : Nat))], c ∉ [((0 : Nat), (1 : Nat))]) ∧
    ((25 : ℚ) = 0 → [((0 : Nat), (0 : Nat))] = ([] : List (Nat × Nat))) ∧
    ((25 : ℚ) = 0 → [((0 : Nat), (1 : Nat))] = ([] : List (Nat × Nat)))) :=
  ⟨by decide, by decide,
    badPixelLocations_sizes_and_disjointness [[1, 1], [1, 1]] 25 25 10 0
      (fun _ => 0) (fun _ => 5) (fun _ => 3) 1 (by decide) (by decide)
      [(0, 0)] [(0, 1)] [5] [3] (by decide)⟩

/-! ### C5: insufficient pixels -/

/-- C5: whenever the requested hot and dead counts together exceed the
total pixel count, `bad_pixel_locations` fails with the insufficient-pixels
error (the `np.random.choice(..., replace=False)` call raises) and returns
no coordinate sets. -/
theorem badPixelLocations_insufficient
    (image : Grid) (hp dp hul dll : ℚ) (idx : Nat → Nat)
    (hdrw ddrw : Nat → ℚ) (fuel : Nat)
    (hover : imgSize image <
      numDefectPixels (imgSize image) hp + numDefectPixels (imgSize image) dp) :
    badPixelLocations image hp dp hul dll idx hdrw ddrw fuel
      = .insufficientPixels := by
  simp only [badPixelLocations]
  split_ifs with h1 h2
  · rfl
  · rfl
  · exfalso
    set total := imgSize image with htotal
    set nH := numDefectPixels total hp with hnH
    set nD := numDefectPixels total dp with hnD
    set hotFlat := sampleNoReplace idx 0 nH (List.range total) with hhot
    have hHnd : hotFlat.Nodup :=
      sampleNoReplace_nodup idx nH 0 (List.range total) (List.nodup_range total)
    have hHsub : ∀ x ∈ hotFlat, x ∈ List.range total :=
      sampleNoReplace_subset idx nH 0 (List.range total)
    have hHlen : hotFlat.length = nH := by
      apply sampleNoReplace_length
      rw [List.length_range]
      omega
    have hrem : ((List.range total).filter (fun i => i ∉ hotFlat)).length
        = total - nH := by
      rw [length_filter_not_mem total hotFlat hHsub hHnd, hHlen]
    rw [hrem] at h2
    omega

/-- Witness for C5: a 2×2 image with both percentages 75 requests 3 + 3
pixels out of 4 and fails. -/
theorem badPixelLocations_insufficient_witness :
    imgSize [[1, 1], [1, 1]] <
      numDefectPixels (imgSize [[1, 1], [1, 1]]) 75
        + numDefectPixels (imgSize [[1, 1], [1, 1]]) 75 ∧
    badPixelLocations [[1, 1], [1, 1]] 75 75 10 0 (fun _ => 0) (fun _ => 5)
      (fun _ => 3) 1 = .insufficientPixels :=
  ⟨by decide,
    badPixelLocations_insufficient [[1, 1], [1, 1]] 75 75 10 0 (fun _ => 0)
      (fun _ => 5) (fun _ => 3) 1 (by decide)⟩

/-! ### C4: bounds on the sampled values -/

/-- C4: whenever `bad_pixel_locations` returns, every returned hot value is
`≤ hot_upper_limit`, every returned dead value is `≥ dead_lower_limit`, and
there are exactly `num_hot` and `num_dead` accepted values respectively. -/
theorem badPixelLocations_value_bounds
    (image : Grid) (hp dp hul dll : ℚ) (idx : Nat → Nat)
    (hdrw ddrw : Nat → ℚ) (fuel : Nat)
    (hc dc : List (Nat × Nat)) (hv dv : List ℚ)
    (h : badPixelLocations image hp dp hul dll idx hdrw ddrw fuel
        = .done hc dc hv dv) :
    hv.length = numDefectPixels (imgSize image) hp ∧
    dv.length = numDefectPixels (imgSize image) dp ∧
    (∀ v ∈ hv, v ≤ hul) ∧ (∀ v ∈ dv, dll ≤ v) := by
  simp only [badPixelLocations] at h
  split_ifs at h with h1 h2
  split at h
  case _ hr1 hr2 =>
    injection h with e1 e2 e3 e4
    subst e3
    subst e4
    obtain ⟨hl1, hb1⟩ := rejectionSample_some _ _ _ _ _ hr1
    obtain ⟨hl2, hb2⟩ := rejectionSample_some _ _ _ _ _ hr2
    refine ⟨hl1, hl2, ?_, ?_⟩
    · intro v hvmem
      exact of_decide_eq_true (hb1 v hvmem)
    · intro v hvmem
      exact of_decide_eq_true (hb2 v hvmem)
  case _ => exact absurd h (by simp)

/-- Witness for C4 at the same concrete run as C1's witness. -/
theorem badPixelLocations_value_bounds_witness :
    badPixelLocations [[1, 1], [1, 1]] 25 25 10 0 (fun _ => 0) (fun _ => 5)
      (fun _ => 3) 1 = .done [(0, 0)] [(0, 1)] [5] [3] ∧
    (([(5 : ℚ)]).length = numDefectPixels (imgSize [[1, 1], [1, 1]]) 25 ∧
     ([(3 : ℚ)]).length = numDefectPixels (imgSize [[1, 1], [1, 1]]) 25 ∧
     (∀ v ∈ [(5 : ℚ)], v ≤ 10) ∧ (∀ v ∈ [(3 : ℚ)], (0 : ℚ) ≤ v)) :=
  ⟨by decide,
    badPixelLocations_value_bounds [[1, 1], [1, 1]] 25 25 10 0 (fun _ => 0)
      (fun _ => 5) (fun _ => 3) 1 [(0, 0)] [(0, 1)] [5] [3] (by decide)⟩

/-! ### C3: the rejection-sampling loops are unbounded -/

/-- Counterexample to C3: with `hot_upper_limit = 0` and every Gaussian
draw equal to 1 (acceptance probability zero, as when `hot_upper_limit` is
far below `hot_peak`), the value loop never finishes: no finite number of
draws yields the one requested accepted value, and the loop is still
running after every number of draws.  The code has no attempt bound and no
`SamplingExhaustedError` to fail with, contrary to the claim. -/
theorem rejectionSampling_unbounded_counterexample :
    (¬ SamplerTerminates (fun q => q ≤ 0) (fun _ => 1) 1) ∧
    (∀ fuel, rejectionSample (fun q => q ≤ 0) (fun _ => 1) 1 fuel = none) := by
  have hemp : ∀ n,
      acceptedWithin (fun q => decide (q ≤ 0)) (fun _ => 1) n = [] := by
    intro n
    unfold acceptedWithin
    rw [List.filter_eq_nil_iff]
    intro a ha
    rcases List.mem_map.mp ha with ⟨i, _, rfl⟩
    decide
  constructor
  · rintro ⟨n, hn⟩
    rw [hemp n] at hn
    simp at hn
  · intro fuel
    unfold rejectionSample
    rw [hemp fuel]
    simp

/-- C3 amended: the rejection-sampling loops of `bad_pixel_locations` carry
no maximum-attempt bound and no `SamplingExhaustedError`; the sampler
terminates exactly when the draw stream eventually supplies the requested
number of accepted values, in which case it returns exactly that many
values, all accepted. -/
theorem rejectionSample_terminates_iff (accept : ℚ → Bool) (vs : Nat → ℚ)
    (num : Nat) :
    (SamplerTerminates accept vs num
      ↔ ∃ fuel l, rejectionSample accept vs num fuel = some l) ∧
    (∀ fuel l, rejectionSample accept vs num fuel = some l →
      l.length = num ∧ ∀ v ∈ l, accept v = true) := by
  constructor
  · constructor
    · rintro ⟨n, hn⟩
      refine ⟨n, (acceptedWithin accept vs n).take num, ?_⟩
      unfold rejectionSample
      rw [if_pos hn]
    · rintro ⟨fuel, l, hl⟩
      unfold rejectionSample at hl
      split_ifs at hl with hge
      exact ⟨fuel, hge⟩
  · intro fuel l hl
    exact rejectionSample_some _ _ _ _ _ hl

/-- Witness for C3's amended theorem: a terminating concrete instance. -/
theorem rejectionSample_terminates_iff_witness :
    ((SamplerTerminates (fun q => q ≤ 10) (fun _ => 5) 1
        ↔ ∃ fuel l,
            rejectionSample (fun q => q ≤ 10) (fun _ => 5) 1 fuel = some l) ∧
     (∀ fuel l, rejectionSample (fun q => q ≤ 10) (fun _ => 5) 1 fuel = some l →
        l.length = 1 ∧ ∀ v ∈ l, (fun q => decide (q ≤ 10)) v = true)) ∧
    rejectionSample (fun q => q ≤ 10) (fun _ => 5) 1 1 = some [5] :=
  ⟨rejectionSample_terminates_iff (fun q => q ≤ 10) (fun _ => 5) 1, by decide⟩

/-! ### C10: the result depends on the image only through its shape -/

/-- C10: `bad_pixel_locations` reads its input image only through its
dimensions — two images of the same shape yield identical outcomes for the
same parameters and random streams, regardless of pixel contents.  (The
function also never mutates its input: it operates on `np.copy(image)`,
and the embedding is pure.) -/
theorem badPixelLocations_shape_only
    (img1 img2 : Grid) (hp dp hul dll : ℚ) (idx : Nat → Nat)
    (hdrw ddrw : Nat → ℚ) (fuel : Nat)
    (hsh : shape img1 = shape img2) :
    badPixelLocations img1 hp dp hul dll idx hdrw ddrw fuel
      = badPixelLocations img2 hp dp hul dll idx hdrw ddrw fuel := by
  unfold badPixelLocations imgSize
  rw [hsh]

/-- Witness for C10: two 2×2 images with different contents produce
identical outcomes. -/
theorem badPixelLocations_shape_only_witness :
    shape [[1, 2], [3, 4]] = shape [[(0 : ℚ), 0], [7, 9]] ∧
    badPixelLocations [[1, 2], [3, 4]] 25 25 10 0 (fun _ => 0) (fun _ => 5)
        (fun _ => 3) 1
      = badPixelLocations [[0, 0], [7, 9]] 25 25 10 0 (fun _ => 0)
        (fun _ => 5) (fun _ => 3) 1 :=
  ⟨by decide,
    badPixelLocations_shape_only [[1, 2], [3, 4]] [[0, 0], [7, 9]] 25 25 10 0
      (fun _ => 0) (fun _ => 5) (fun _ => 3) 1 (by decide)⟩

/-! ### C2: the telegraphic schedule -/

theorem getD_append_mapIdx_left {α β : Type} (f g : Nat → α → β)
    (l1 l2 : List α) (i : Nat) (h : i < l1.length) (d : β) :
    ((l1.mapIdx f ++ l2.mapIdx g).getD i d) = f i (l1.get ⟨i, h⟩) := by
  rw [List.getD_eq_getElem?_getD, List.getElem?_append_left (by simpa using h),
    List.getElem?_eq_getElem (by simpa using h)]
  simp

theorem getD_append_mapIdx_right {α β : Type} (f g : Nat → α → β)
    (l1 l2 : List α) (i : Nat) (h : i < l2.length) (d : β) :
    ((l1.mapIdx f ++ l2.mapIdx g).getD (l1.length + i) d) = g i (l2.get ⟨i, h⟩) := by
  rw [List.getD_eq_getElem?_getD, List.getElem?_append_right (by simp)]
  have hidx : l1.length + i - (l1.mapIdx f).length = i := by simp
  rw [hidx, List.getElem?_eq_getElem (by simpa using h)]
  simp

theorem telegraphCondition_iff (interval i : Nat) :
    telegraphCondition interval i = true ↔ i % interval = 0 ∧ i ≠ 0 := by
  simp [telegraphCondition]

theorem telegraphFrame_eq_ite (interval : Nat) (coords : List (Nat × Nat))
    (v : ℚ) (i : Nat) (frame : Grid) :
    telegraphFrame interval coords v i frame
      = if i % interval = 0 ∧ i ≠ 0 then applyTelegraphic coords v frame
        else frame := by
  unfold telegraphFrame
  by_cases hcond : i % interval = 0 ∧ i ≠ 0
  · rw [if_pos ((telegraphCondition_iff interval i).mpr hcond), if_pos hcond]
  · rw [if_neg (fun hh => hcond ((telegraphCondition_iff interval i).mp hh)),
      if_neg hcond]

/-- C2: in `add_telegraphic_pixels`, for every frame index `i` (0-based) of
the light sequence and of the dark sequence, the persisted pixel data is
the fixed value written at the selected coordinates exactly when
`i % interval = 0` and `i ≠ 0`, and the source frame's data unmodified on
every other frame; in particular with `interval = 5` over 12 frames the
value appears on frames 5 and 10 only. -/
theorem addTelegraphicPixels_schedule
    (dir : String) (lights darks : List SrcFrame) (tp : ℚ) (interval : Nat)
    (v : ℚ) (idx : Nat → Nat) :
    (∀ i, (h : i < lights.length) →
      ((addTelegraphicPixels dir lights darks tp interval v idx).getD i
          ⟨"", "", "", []⟩).data
        = if i % interval = 0 ∧ i ≠ 0
          then applyTelegraphic (telegraphCoords lights tp idx) v
            (lights.get ⟨i, h⟩).data
          else (lights.get ⟨i, h⟩).data) ∧
    (∀ i, (h : i < darks.length) →
      ((addTelegraphicPixels dir lights darks tp interval v idx).getD
          (lights.length + i) ⟨"", "", "", []⟩).data
        = if i % interval = 0 ∧ i ≠ 0
          then applyTelegraphic (telegraphCoords lights tp idx) v
            (darks.get ⟨i, h⟩).data
          else (darks.get ⟨i, h⟩).data) ∧
    (∀ i, i < 12 →
      (((addTelegraphicPixels "./out" (List.replicate 12 ⟨[[0]], ""⟩) [] 100 5 7
            (fun _ => 0)).getD i ⟨"", "", "", []⟩).data = [[7]]
        ↔ (i = 5 ∨ i = 10))) := by
  refine ⟨?_, ?_, ?_⟩
  · intro i h
    unfold addTelegraphicPixels
    rw [getD_append_mapIdx_left _ _ _ _ i h]
    exact telegraphFrame_eq_ite _ _ _ _ _
  · intro i h
    unfold addTelegraphicPixels
    rw [getD_append_mapIdx_right _ _ _ _ i h]
    exact telegraphFrame_eq_ite _ _ _ _ _
  · decide

/-- Witness for C2 at a concrete one-frame sequence (index 0 is excluded
from the schedule, so the frame passes through). -/
theorem addTelegraphicPixels_schedule_witness :
    (0 : Nat) < 1 ∧
    ((addTelegraphicPixels "./out" [⟨[[0]], ""⟩] [] 100 5 7 (fun _ => 0)).getD 0
        ⟨"", "", "", []⟩).data
      = if 0 % 5 = 0 ∧ (0 : Nat) ≠ 0
        then applyTelegraphic (telegraphCoords [⟨[[0]], ""⟩] 100 (fun _ => 0)) 7
          [[0]]
        else [[0]] :=
  ⟨by decide,
    (addTelegraphicPixels_schedule "./out" [⟨[[0]], ""⟩] [] 100 5 7
      (fun _ => 0)).1 0 (by decide)⟩

/-! ### C6: pixel-exact effect of the static defect applicator -/


theorem getPixel_setPixel_ne (f : Grid) (c c' : Nat × Nat) (v : ℚ)
    (h : c' ≠ c) :
    getPixel (setPixel f c v) c' = getPixel f c' := by
  obtain ⟨r, k⟩ := c
  obtain ⟨r', k'⟩ := c'
  unfold getPixel setPixel
  simp only [List.getD_eq_getElem?_getD]
  by_cases h1 : r' = r
  · subst h1
    have h2 : k' ≠ k := by
      intro hk
      exact h (by rw [hk])
    by_cases hr : r' < f.length
    · rw [List.getElem?_set_self hr]
      simp only [Option.getD_some]
      rw [List.getElem?_set_ne (fun e => h2 e.symm)]
    · rw [List.set_eq_of_length_le (by omega)]
  · rw [List.getElem?_set_ne (fun e => h1 e.symm)]

theorem getPixel_setPixel_self (f : Grid) (hh ww : Nat) (c : Nat × Nat)
    (v : ℚ) (hrect : Rectangular f hh ww) (h1 : c.1 < hh) (h2 : c.2 < ww) :
    getPixel (setPixel f c v) c = v := by
  obtain ⟨r, k⟩ := c
  unfold getPixel setPixel
  simp only [List.getD_eq_getElem?_getD] at h1 h2 ⊢
  have hr : r < f.length := by rw [hrect.1]; exact h1
  rw [List.getElem?_set_self hr]
  simp only [Option.getD_some]
  have hrow : f[r]?.getD [] ∈ f := by
    rw [List.getElem?_eq_getElem hr]
    exact List.getElem_mem _
  have hrl : (f[r]?.getD []).length = ww := hrect.2 _ hrow
  have hcl : k < (f[r]?.getD []).length := by simp only [hrl]; exact h2
  rw [List.getElem?_set_self hcl]
  rfl

theorem rectangular_setPixel (f : Grid) (hh ww : Nat) (c : Nat × Nat) (v : ℚ)
    (hrect : Rectangular f hh ww) : Rectangular (setPixel f c v) hh ww := by
  unfold setPixel
  refine ⟨by rw [List.length_set]; exact hrect.1, ?_⟩
  intro row hrow
  by_cases hr : c.1 < f.length
  · rcases List.mem_or_eq_of_mem_set hrow with h | h
    · exact hrect.2 _ h
    · subst h
      rw [List.length_set]
      apply hrect.2
      rw [List.getD_eq_getElem?_getD, List.getElem?_eq_getElem hr]
      exact List.getElem_mem _
  · rw [List.set_eq_of_length_le (by omega)] at hrow
    exact hrect.2 _ hrow



theorem foldl_setPixel_not_mem (ps : List ((Nat × Nat) × ℚ)) (f : Grid)
    (c : Nat × Nat) (hc : ∀ p ∈ ps, p.1 ≠ c) :
    getPixel (ps.foldl (fun fr p => setPixel fr p.1 p.2) f) c = getPixel f c := by
  induction ps generalizing f with
  | nil => rfl
  | cons p rest ih =>
      rw [List.foldl_cons, ih _ (fun q hq => hc q (List.mem_cons_of_mem _ hq))]
      exact getPixel_setPixel_ne f p.1 c p.2
        (fun e => hc p (List.mem_cons_self _ _) e.symm)

theorem rectangular_foldl_setPixel (ps : List ((Nat × Nat) × ℚ)) (f : Grid)
    (hh ww : Nat) (hrect : Rectangular f hh ww) :
    Rectangular (ps.foldl (fun fr p => setPixel fr p.1 p.2) f) hh ww := by
  induction ps generalizing f with
  | nil => exact hrect
  | cons p rest ih =>
      rw [List.foldl_cons]
      exact ih _ (rectangular_setPixel f hh ww p.1 p.2 hrect)

theorem foldl_setPixel_mem (ps : List ((Nat × Nat) × ℚ)) (f : Grid)
    (hh ww : Nat) (c : Nat × Nat) (v : ℚ)
    (hrect : Rectangular f hh ww) (h1 : c.1 < hh) (h2 : c.2 < ww)
    (hmem : (c, v) ∈ ps) (hnd : (ps.map Prod.fst).Nodup) :
    getPixel (ps.foldl (fun fr p => setPixel fr p.1 p.2) f) c = v := by
  induction ps generalizing f with
  | nil => cases hmem
  | cons p rest ih =>
      rw [List.foldl_cons]
      rcases List.mem_cons.mp hmem with heq | hmemr
      · subst heq
        simp only [List.map_cons] at hnd
        have hnotin : c ∉ rest.map Prod.fst := (List.nodup_cons.mp hnd).1
        have hcnot : ∀ q ∈ rest, q.1 ≠ c := by
          intro q hq e
          exact hnotin (e ▸ List.mem_map_of_mem Prod.fst hq)
        rw [foldl_setPixel_not_mem rest _ c hcnot]
        exact getPixel_setPixel_self f hh ww c v hrect h1 h2
      · simp only [List.map_cons] at hnd
        exact ih _ (rectangular_setPixel f hh ww p.1 p.2 hrect) hmemr
          (List.nodup_cons.mp hnd).2

theorem getPixel_writePixels_not_mem (f : Grid)
    (coords : List (Nat × Nat)) (vals : List ℚ) (c : Nat × Nat)
    (hc : c ∉ coords) :
    getPixel (writePixels f coords vals) c = getPixel f c := by
  apply foldl_setPixel_not_mem
  intro p hp e
  exact hc (e ▸ (List.of_mem_zip hp).1)

theorem rectangular_writePixels (f : Grid) (coords : List (Nat × Nat))
    (vals : List ℚ) (hh ww : Nat) (hrect : Rectangular f hh ww) :
    Rectangular (writePixels f coords vals) hh ww :=
  rectangular_foldl_setPixel _ f hh ww hrect

theorem getPixel_writePixels_at (f : Grid) (coords : List (Nat × Nat))
    (vals : List ℚ) (hh ww : Nat) (j : Nat) (hj : j < coords.length)
    (hjv : j < vals.length)
    (hlen : vals.length = coords.length) (hnd : coords.Nodup)
    (hrect : Rectangular f hh ww)
    (hb1 : (coords.get ⟨j, hj⟩).1 < hh) (hb2 : (coords.get ⟨j, hj⟩).2 < ww) :
    getPixel (writePixels f coords vals) (coords.get ⟨j, hj⟩)
      = vals.get ⟨j, hjv⟩ := by
  apply foldl_setPixel_mem _ _ hh ww _ _ hrect hb1 hb2
  · apply List.getElem?_mem (n := j)
    rw [List.getElem?_zip_eq_some]
    constructor
    · rw [List.getElem?_eq_getElem hj]
      rfl
    · rw [List.getElem?_eq_getElem hjv]
      rfl
  · rw [List.map_fst_zip _ _ (by omega)]
    exact hnd



/-- C6: for every frame processed by `add_bad_pixels`, light and dark alike,
the persisted pixel grid equals the source frame's grid with exactly the
pixels at the hot coordinate set replaced by the sampled hot values and the
pixels at the dead coordinate set replaced by the sampled dead values;
every pixel outside those two coordinate sets is unchanged from the source
frame.  (Hot and dead coordinate sets are disjoint and duplicate-free, as
`bad_pixel_locations` produces them — C1.) -/
theorem addBadPixels_frame_effect
    (dir : String) (lights darks : List SrcFrame)
    (hotCoords deadCoords : List (Nat × Nat)) (hotVals deadVals : List ℚ)
    (hh ww : Nat)
    (hhnd : hotCoords.Nodup) (hdnd : deadCoords.Nodup)
    (hdisj : ∀ c ∈ hotCoords, c ∉ deadCoords)
    (hhlen : hotVals.length = hotCoords.length)
    (hdlen : deadVals.length = deadCoords.length)
    (hhb : ∀ c ∈ hotCoords, c.1 < hh ∧ c.2 < ww)
    (hdb : ∀ c ∈ deadCoords, c.1 < hh ∧ c.2 < ww) :
    (∀ frame : Grid, Rectangular frame hh ww →
      (∀ j, (hj : j < hotCoords.length) → (hjv : j < hotVals.length) →
        getPixel (applyStaticDefects hotCoords hotVals deadCoords deadVals frame)
          (hotCoords.get ⟨j, hj⟩) = hotVals.get ⟨j, hjv⟩) ∧
      (∀ j, (hj : j < deadCoords.length) → (hjv : j < deadVals.length) →
        getPixel (applyStaticDefects hotCoords hotVals deadCoords deadVals frame)
          (deadCoords.get ⟨j, hj⟩) = deadVals.get ⟨j, hjv⟩) ∧
      (∀ c, c ∉ hotCoords → c ∉ deadCoords →
        getPixel (applyStaticDefects hotCoords hotVals deadCoords deadVals frame) c
          = getPixel frame c)) ∧
    (∀ i, (h : i < lights.length) →
      ((addBadPixels dir lights darks hotCoords deadCoords hotVals
          deadVals).getD i ⟨"", "", "", []⟩).data
        = applyStaticDefects hotCoords hotVals deadCoords deadVals
            (lights.get ⟨i, h⟩).data) ∧
    (∀ i, (h : i < darks.length) →
      ((addBadPixels dir lights darks hotCoords deadCoords hotVals
          deadVals).getD (lights.length + i) ⟨"", "", "", []⟩).data
        = applyStaticDefects hotCoords hotVals deadCoords deadVals
            (darks.get ⟨i, h⟩).data) := by
  refine ⟨?_, ?_, ?_⟩
  · intro frame hrect
    refine ⟨?_, ?_, ?_⟩
    · intro j hj hjv
      unfold applyStaticDefects
      have hmem : hotCoords.get ⟨j, hj⟩ ∈ hotCoords := List.get_mem _ _ hj
      rw [getPixel_writePixels_not_mem _ _ _ _ (hdisj _ hmem)]
      exact getPixel_writePixels_at frame hotCoords hotVals hh ww j hj hjv
        hhlen hhnd hrect (hhb _ hmem).1 (hhb _ hmem).2
    · intro j hj hjv
      unfold applyStaticDefects
      have hmem : deadCoords.get ⟨j, hj⟩ ∈ deadCoords := List.get_mem _ _ hj
      exact getPixel_writePixels_at _ deadCoords deadVals hh ww j hj hjv
        hdlen hdnd (rectangular_writePixels frame hotCoords hotVals hh ww hrect)
        (hdb _ hmem).1 (hdb _ hmem).2
    · intro c hch hcd
      unfold applyStaticDefects
      rw [getPixel_writePixels_not_mem _ _ _ _ hcd,
        getPixel_writePixels_not_mem _ _ _ _ hch]
  · intro i h
    unfold addBadPixels
    rw [getD_append_mapIdx_left _ _ _ _ i h]
  · intro i h
    unfold addBadPixels
    rw [getD_append_mapIdx_right _ _ _ _ i h]

/-- Witness for C6: on a concrete 2×2 frame, the hot pixel reads back its
hot value, the dead pixel its dead value, and an untouched pixel its
original value. -/
theorem addBadPixels_frame_effect_witness :
    getPixel (applyStaticDefects [((0 : Nat), (0 : Nat))] [(5 : ℚ)] [(1, 1)] [9]
      [[1, 2], [3, 4]]) (0, 0) = 5 ∧
    getPixel (applyStaticDefects [((0 : Nat), (0 : Nat))] [(5 : ℚ)] [(1, 1)] [9]
      [[1, 2], [3, 4]]) (1, 1) = 9 ∧
    getPixel (applyStaticDefects [((0 : Nat), (0 : Nat))] [(5 : ℚ)] [(1, 1)] [9]
      [[1, 2], [3, 4]]) (0, 1) = getPixel [[1, 2], [3, 4]] (0, 1) := by
  have H := addBadPixels_frame_effect "./out" [] [] [(0, 0)] [(1, 1)] [5] [9]
    2 2 (by decide) (by decide) (by decide) (by decide) (by decide)
    (by decide) (by decide)
  obtain ⟨Hf, _, _⟩ := H
  obtain ⟨Hhot, Hdead, Hout⟩ := Hf [[1, 2], [3, 4]] (by constructor <;> decide)
  exact ⟨Hhot 0 (by decide) (by decide), Hdead 0 (by decide) (by decide),
    Hout (0, 1) (by decide) (by decide)⟩


/-! ### C9: hardcoded output directories -/


/-- C9: for every caller-supplied `dir_bad_images`, `add_bad_pixels` writes
its outputs under the fixed directory
`./images_all_guiding_hot_cold_warm_pixels` and `add_telegraphic_pixels`
under `./images_all_guiding_bad_pixels`; the outputs are completely
independent of the `dir_bad_images` argument, which the hardcoded literal
overrides. -/
theorem output_dirs_hardcoded
    (d1 d2 : String) (lights darks : List SrcFrame)
    (hotCoords deadCoords : List (Nat × Nat)) (hotVals deadVals : List ℚ)
    (tp : ℚ) (interval : Nat) (v : ℚ) (idx : Nat → Nat) :
    addBadPixels d1 lights darks hotCoords deadCoords hotVals deadVals
      = addBadPixels d2 lights darks hotCoords deadCoords hotVals deadVals ∧
    addTelegraphicPixels d1 lights darks tp interval v idx
      = addTelegraphicPixels d2 lights darks tp interval v idx ∧
    (∀ o ∈ addBadPixels d1 lights darks hotCoords deadCoords hotVals deadVals,
      ∃ s, o.path = "./images_all_guiding_hot_cold_warm_pixels" ++ s) ∧
    (∀ o ∈ addTelegraphicPixels d1 lights darks tp interval v idx,
      ∃ s, o.path = "./images_all_guiding_bad_pixels" ++ s) := by
  refine ⟨rfl, rfl, ?_, ?_⟩
  · intro o ho
    unfold addBadPixels at ho
    rcases List.mem_append.mp ho with h | h
    · obtain ⟨i, hi, rfl⟩ := List.exists_of_mem_mapIdx h
      refine ⟨"/image_light_hcw_pixels_" ++ toString (i + 1) ++ ".fits", ?_⟩
      simp only [String.append_assoc]
    · obtain ⟨i, hi, rfl⟩ := List.exists_of_mem_mapIdx h
      refine ⟨"/image_dark_hcw_pixels_" ++ toString (i + 1) ++ ".fits", ?_⟩
      simp only [String.append_assoc]
  · intro o ho
    unfold addTelegraphicPixels at ho
    rcases List.mem_append.mp ho with h | h
    · obtain ⟨i, hi, rfl⟩ := List.exists_of_mem_mapIdx h
      refine ⟨"/image_light_guiding_bad_pixels_" ++ toString (i + 1)
        ++ ".fits", ?_⟩
      simp only [String.append_assoc]
    · obtain ⟨i, hi, rfl⟩ := List.exists_of_mem_mapIdx h
      refine ⟨"/image_dark_guiding_bad_pixels_" ++ toString (i + 1)
        ++ ".fits", ?_⟩
      simp only [String.append_assoc]


/-- Witness for C9: two different caller-supplied directories give
identical outputs, and a concrete output path carries the hardcoded
directory. -/
theorem output_dirs_hardcoded_witness :
    (addBadPixels "dirA" [⟨[[1]], "d"⟩] [] [] [] [] []
      = addBadPixels "dirB" [⟨[[1]], "d"⟩] [] [] [] [] []) ∧
    (∃ s, ((addBadPixels "dirA" [⟨[[1]], "d"⟩] [] [] [] [] []).getD 0
        ⟨"", "", "", []⟩).path
      = "./images_all_guiding_hot_cold_warm_pixels" ++ s) := by
  have H := output_dirs_hardcoded "dirA" "dirB" [⟨[[1]], "d"⟩] [] [] [] [] []
    0 5 0 (fun _ => 0)
  exact ⟨H.1, H.2.2.1 _ (by decide)⟩


/-! ### C8: the warm-pixel rescaling -/

theorem sum_map_add_const (l : List ℚ) (c : ℚ) :
    (l.map (fun x => x + c)).sum = l.sum + l.length * c := by
  induction l with
  | nil => simp
  | cons a t ih =>
      simp only [List.map_cons, List.sum_cons, List.length_cons, ih]
      push_cast
      ring

theorem sum_map_mul_const (l : List ℚ) (k : ℚ) :
    (l.map (fun x => x * k)).sum = l.sum * k := by
  induction l with
  | nil => simp
  | cons a t ih =>
      simp only [List.map_cons, List.sum_cons, ih]
      ring

theorem length_cast_ne_zero (l : List ℚ) (hl : l ≠ []) :
    ((l.length : ℚ)) ≠ 0 := by
  have : l.length ≠ 0 := fun h => hl (List.eq_nil_of_length_eq_zero h)
  exact_mod_cast this

theorem mean_map_add_const (l : List ℚ) (c : ℚ) (hl : l ≠ []) :
    mean (l.map (fun x => x + c)) = mean l + c := by
  unfold mean
  rw [List.length_map, sum_map_add_const]
  have hne := length_cast_ne_zero l hl
  field_simp
  ring

theorem mean_map_mul_const (l : List ℚ) (k : ℚ) :
    mean (l.map (fun x => x * k)) = mean l * k := by
  unfold mean
  rw [List.length_map, sum_map_mul_const]
  ring

theorem variance_map_add_const (l : List ℚ) (c : ℚ) (hl : l ≠ []) :
    variance (l.map (fun x => x + c)) = variance l := by
  unfold variance
  rw [mean_map_add_const l c hl, List.map_map]
  congr 1
  apply List.map_congr_left
  intro x _
  simp only [Function.comp_apply]
  ring

theorem variance_map_mul_const (l : List ℚ) (k : ℚ) :
    variance (l.map (fun x => x * k)) = variance l * (k * k) := by
  unfold variance
  rw [mean_map_mul_const, List.map_map]
  have hmap : (l.map ((fun x => (x - mean l * k) ^ 2) ∘ fun x => x * k))
      = (l.map ((fun y => y * (k * k)) ∘ (fun x => (x - mean l) ^ 2))) := by
    apply List.map_congr_left
    intro x _
    simp only [Function.comp_apply]
    ring
  rw [hmap, ← List.map_map, ← mean_map_mul_const]

/-- C8: after the rescale step (`data / data_std * std_warm`) and the
mean-adjusting shift, `warm_pixels`' sample set has empirical mean exactly
`mean_warm` and empirical standard deviation exactly `std_warm` — in exact
real arithmetic, for every sample with nonzero empirical standard
deviation (`s` is the computed `np.std(data)`, characterised by
`s * s = variance data`, `0 < s`); the shift does not change the
already-matched standard deviation. -/
theorem scaledData_mean_and_std (data : List ℚ) (s stdW meanW : ℚ)
    (hne : data ≠ []) (hs : 0 < s) (hvar : s * s = variance data)
    (hstdW : 0 ≤ stdW) :
    mean (scaledData data s stdW meanW) = meanW ∧
    variance (scaledData data s stdW meanW) = stdW * stdW ∧
    (∀ t, 0 ≤ t → t * t = variance (scaledData data s stdW meanW) →
      t = stdW) := by
  have hsne : s ≠ 0 := ne_of_gt hs
  have hfun : (fun x : ℚ => x / s * stdW) = (fun x : ℚ => x * (stdW / s)) := by
    funext x
    field_simp
  have hscne : data.map (fun x => x / s * stdW) ≠ [] := by
    intro h
    exact hne (List.map_eq_nil_iff.mp h)
  have hmean : mean (scaledData data s stdW meanW) = meanW := by
    unfold scaledData
    rw [mean_map_add_const _ _ hscne]
    ring
  have hvar2 : variance (scaledData data s stdW meanW) = stdW * stdW := by
    unfold scaledData
    rw [variance_map_add_const _ _ hscne, hfun, variance_map_mul_const,
      ← hvar]
    field_simp
  refine ⟨hmean, hvar2, ?_⟩
  intro t ht htt
  rw [hvar2] at htt
  rcases mul_self_eq_mul_self_iff.mp htt with h | h
  · exact h
  · have : t = 0 ∧ stdW = 0 := by constructor <;> linarith
    rw [this.1, this.2]

/-- Witness for C8: the sample `[0, 2]` has standard deviation 1; rescaled
to target standard deviation 3 and shifted to target mean 5. -/
theorem scaledData_mean_and_std_witness :
    ([(0 : ℚ), 2] ≠ ([] : List ℚ)) ∧ (0 : ℚ) < 1 ∧
    (1 : ℚ) * 1 = variance [0, 2] ∧ (0 : ℚ) ≤ 3 ∧
    (mean (scaledData [0, 2] 1 3 5) = 5 ∧
     variance (scaledData [0, 2] 1 3 5) = 3 * 3 ∧
     (∀ t, 0 ≤ t → t * t = variance (scaledData [0, 2] 1 3 5) → t = 3)) :=
  ⟨by simp, by norm_num, by norm_num [variance, mean], by norm_num,
    scaledData_mean_and_std [0, 2] 1 3 5 (by simp) (by norm_num)
      (by norm_num [variance, mean]) (by norm_num)⟩

/-! ### C7: one warm array per sequence, but light and dark draw their own -/

theorem ratFloor_eq_intFloor (q : ℚ) : Rat.floor q = ⌊q⌋ :=
  (Rat.floor_def' q).trans Rat.floor_def.symm

theorem toUInt16Val_eq (q : ℚ) : toUInt16Val q = (⌊q⌋).toNat % 65536 := by
  unfold toUInt16Val
  rw [ratFloor_eq_intFloor]

theorem ratSqrt_one : ratSqrt 1 = 1 := by
  norm_num [ratSqrt, Nat.sqrt_one]

theorem runWarmArrays_left_eval : (runWarmArrays ratSqrt 1 2
    (fun n => [0, 2, 0, -2].getD n 0) (fun _ => 0)).1 = [[42, 60]] := by
  norm_num [runWarmArrays, warmPixels, scaledData, variance, mean,
    toUInt16Val_eq, meanWarmDefault, stdWarmDefault, List.range_succ,
    ratSqrt_one]
  decide

theorem runWarmArrays_right_eval : (runWarmArrays ratSqrt 1 2
    (fun n => [0, 2, 0, -2].getD n 0) (fun _ => 0)).2 = [[60, 42]] := by
  norm_num [runWarmArrays, warmPixels, scaledData, variance, mean,
    toUInt16Val_eq, meanWarmDefault, stdWarmDefault, List.range_succ,
    ratSqrt_one]
  decide

/-- Counterexample to C7: in a run of the generation script on a 1×2
camera where the light-sequence `warm_pixels` call receives the skew-normal
draws `[0, 2]` and the dark-sequence call, drawing next from the same
global stream, receives `[0, -2]`, the warm array added to every light
frame is `[[42, 60]]` while the one added to every dark frame is
`[[60, 42]]`: the bias array added by `generate_light_images` is not equal
to the one added by `generate_dark_images` within the same run. -/
theorem warm_bias_arrays_differ_counterexample :
    (runWarmArrays ratSqrt 1 2 (fun n => [0, 2, 0, -2].getD n 0)
        (fun _ => 0)).1
      ≠ (runWarmArrays ratSqrt 1 2 (fun n => [0, 2, 0, -2].getD n 0)
        (fun _ => 0)).2 := by
  rw [runWarmArrays_left_eval, runWarmArrays_right_eval]
  decide

theorem getD_map_range (n : Nat) (f : Nat → Grid) (i : Nat) (h : i < n) :
    (((List.range n).map f).getD i []) = f i := by
  rw [List.getD_eq_getElem?_getD, List.getElem?_map, List.getElem?_range h]
  rfl

/-- C7 amended: within `generate_light_images` one single warm array —
computed by its one `warm_pixels` call — is added to every light frame
before persistence, and within `generate_dark_images` one single warm
array is likewise added to every dark frame; but each function makes its
own fresh `warm_pixels` call on the global random stream, so the
light-sequence array and the dark-sequence array are computed from
independent draws and in general differ. -/
theorem generate_images_one_warm_array_per_sequence
    (numLight numDark : Nat) (baseL baseD : Nat → Grid) (sqrtFn : ℚ → ℚ)
    (h w : Nat) (skewL skewD : Nat → ℚ) (poisL poisD : Nat → Nat) :
    (∀ i, i < numLight →
      (generateLightImages numLight baseL sqrtFn h w skewL poisL).getD i []
        = addWarmGrid (baseL i)
            ((warmPixels sqrtFn h w meanWarmDefault stdWarmDefault skewL
              poisL).1)) ∧
    (∀ i, i < numDark →
      (generateDarkImages numDark baseD sqrtFn h w skewD poisD).getD i []
        = addWarmGrid (baseD i)
            ((warmPixels sqrtFn h w meanWarmDefault stdWarmDefault skewD
              poisD).1)) := by
  constructor
  · intro i hi
    unfold generateLightImages
    exact getD_map_range numLight _ i hi
  · intro i hi
    unfold generateDarkImages
    exact getD_map_range numDark _ i hi

/-- Witness for C7's amended theorem at a concrete one-frame run. -/
theorem generate_images_one_warm_array_witness :
    (0 : Nat) < 1 ∧
    (generateLightImages 1 (fun _ => [[0, 0]]) ratSqrt 1 2 (fun _ => 0)
        (fun _ => 0)).getD 0 []
      = addWarmGrid [[0, 0]]
          ((warmPixels ratSqrt 1 2 meanWarmDefault stdWarmDefault
            (fun _ => 0) (fun _ => 0)).1) :=
  ⟨by decide,
    (generate_images_one_warm_array_per_sequence 1 1 (fun _ => [[0, 0]])
      (fun _ => [[0, 0]]) ratSqrt 1 2 (fun _ => 0) (fun _ => 0) (fun _ => 0)
      (fun _ => 0)).1 0 (by decide)⟩


end PixelDefects
